import Mathlib

/-!
Shallow embedding of the batch reconciliation loop implemented by
`DeforestationIDFetcher` in `src/get_batch_deforestation_results.py`.

The network environment is modelled by an oracle mapping a round number
(the value of `iteracao` when `buscar_dados` is called) and a job id to
the outcome of the HTTP GET: either a `requests.RequestException`
(timeout, connection failure, HTTP error status, non-JSON body — all of
which the source catches in `buscar_dados` and turns into `{}`), or a
parsed JSON body.  Only the fields the source reads are modelled:
`data` (list of records), each record's `Task` list (only the `status`
field of its elements is read) and `analysisResults` (only compared
against `None`).

Ghost instrumentation, not present in the source but needed to state
the claims: each entry of `resultados["data"]` is paired with the
snapshot of the job dictionary at the moment of the append (the source
appends only the raw response); the state records the number of
executed rounds (the final value of `iteracao`) and the list of round
numbers after which `time.sleep(60)` was invoked.
-/

/-- Python `str.upper()` for the ASCII strings that occur as statuses,
applied character-wise. -/
def pyUpper (s : String) : String := String.mk (s.data.map Char.toUpper)

/-- One element of a record's `Task` list.  The source reads only
`task_list[0].get("status", "")`; `none` models a missing `status` key. -/
structure TaskItem where
  status : Option String
deriving DecidableEq

/-- One element of the response's `data` list (`registro` in the source).
`task` models `registro.get("Task", [])` (a missing key and an empty list
are treated identically by the source); `analysisResults` is `none` when
the key is missing or its value is JSON `null`, and `some payload`
otherwise (the payload itself is never inspected). -/
structure Registro where
  task : List TaskItem
  analysisResults : Option String
deriving DecidableEq

/-- The parsed JSON body of a poll, as far as the source reads it.
`data = none` models a dict without a `"data"` key (including the empty
dict `{}` returned by `buscar_dados` on exception). -/
structure Resposta where
  data : Option (List Registro)
deriving DecidableEq

/-- Outcome of one HTTP GET: an exception caught by `buscar_dados`
(timeout, connection failure, HTTP error status, non-JSON body), or a
parsed body. -/
inductive HttpOutcome where
  | exn
  | body (resposta : Resposta)
deriving DecidableEq

/-- Embedding of `DeforestationIDFetcher.buscar_dados` (lines 71-83):
on a `RequestException` it prints and returns `{}`, i.e. a dict with no
`"data"` key; otherwise it returns the parsed JSON body. -/
def buscar_dados (outcome : HttpOutcome) : Resposta :=
  match outcome with
  | .body r => r
  | .exn => { data := none }

/-- One entry of `self.pending_ids` (line 107-109): the dictionary
`{"index": index, "id": str(id_value), "attempts": 0, "last_status": ""}`
mutated in place as rounds are executed. -/
structure Job where
  index : Nat
  id : String
  attempts : Nat
  last_status : String
deriving DecidableEq

/-- Which of the three buckets the body of the `for item in
self.pending_ids` loop sends the item to in this round. -/
inductive Classificacao where
  | completed
  | stillPending
  | errored
deriving DecidableEq

/-- Embedding of the body of the per-item loop of `processar`
(lines 121-174): increment `attempts`, inspect the response, update
`last_status` when a `Task` entry is present, and classify the item as
completed (appended to `resultados["data"]`), still pending (appended
to `new_pending`) or errored (appended to `self.error_ids`). -/
def processItem (resposta : Resposta) (item0 : Job) : Job × Classificacao :=
  let item1 := { item0 with attempts := item0.attempts + 1 }
  match resposta.data with
  | some (registro :: _) =>
    match registro.task with
    | t :: _ =>
      let status := pyUpper ((t.status).getD "")
      let item2 := { item1 with last_status := status }
      if status = "COMPLETED" ∧ (registro.analysisResults).isSome then
        (item2, .completed)
      else if status = "STARTING" ∨ status = "PROCESSING" then
        (item2, .stillPending)
      else if status = "ERROR" then
        (item2, .errored)
      else
        (item2, .stillPending)
    | [] =>
      if (registro.analysisResults).isSome then
        (item1, .completed)
      else
        (item1, .stillPending)
  | _ => (item1, .stillPending)

/-- Embedding of one full pass of the `for item in self.pending_ids`
loop (lines 119-174) against a fixed per-round environment `o`:
returns `(new_pending, newly completed entries, newly errored items)`,
each in traversal order.  A completed entry pairs the ghost job
snapshot with the appended response. -/
def runRound (o : String → HttpOutcome) :
    List Job → List Job × List (Job × Resposta) × List Job
  | [] => ([], [], [])
  | item :: rest =>
    let resposta := buscar_dados (o item.id)
    let pc := processItem resposta item
    let acc := runRound o rest
    match pc.2 with
    | .completed => (acc.1, (pc.1, resposta) :: acc.2.1, acc.2.2)
    | .stillPending => (pc.1 :: acc.1, acc.2.1, acc.2.2)
    | .errored => (acc.1, acc.2.1, pc.1 :: acc.2.2)

/-- State of the `while` loop of `processar`: the pending list, the
accumulated `resultados["data"]` (with ghost job snapshots), the
accumulated `self.error_ids`, the current value of `iteracao`, and the
ghost list of round numbers after which `time.sleep(60)` ran. -/
structure LoopState where
  pending : List Job
  completed : List (Job × Resposta)
  errors : List Job
  rounds : Nat
  sleepRounds : List Nat
deriving DecidableEq

/-- Embedding of one execution of the `while` body (lines 114-184):
increment `iteracao`, run one round over the pending list, replace the
pending list, and sleep (recorded in `sleepRounds`) exactly when the
new pending list is non-empty — the source's `if self.pending_ids:`
guard before `time.sleep(60)`. -/
def stepRound (oracle : Nat → String → HttpOutcome) (s : LoopState) : LoopState :=
  let iter := s.rounds + 1
  let r := runRound (oracle iter) s.pending
  { pending := r.1
    completed := s.completed ++ r.2.1
    errors := s.errors ++ r.2.2
    rounds := iter
    sleepRounds := if r.1.isEmpty then s.sleepRounds else s.sleepRounds ++ [iter] }

/-- Embedding of `while self.pending_ids and iteracao < max_iteracoes:`.
The fuel argument is `max_iteracoes - iteracao`, so the guard
`iteracao < max_iteracoes` is fuel exhaustion. -/
def runLoop (oracle : Nat → String → HttpOutcome) : Nat → LoopState → LoopState
  | 0, s => s
  | fuel + 1, s =>
    if s.pending.isEmpty then s else runLoop oracle fuel (stepRound oracle s)

/-- Embedding of the initial scan over `self.df[self.id_column].items()`
(lines 102-109): a row whose cell is `NaN` (`pd.isna`) is skipped, any
other row becomes a job with `attempts = 0` and `last_status = ""`.
The first argument is the index of the first row. -/
def mkJobsFrom : Nat → List (Option String) → List Job
  | _, [] => []
  | i, none :: rest => mkJobsFrom (i + 1) rest
  | i, some v :: rest =>
    { index := i, id := v, attempts := 0, last_status := "" } :: mkJobsFrom (i + 1) rest

/-- The initial pending list built from the id column of the input table. -/
def mkJobs (rows : List (Option String)) : List Job := mkJobsFrom 0 rows

/-- The retry budget `max_iteracoes = 10` (line 111). -/
def maxIteracoes : Nat := 10

/-- The fixed inter-round delay passed to `time.sleep` (line 184). -/
def sleepSeconds : Nat := 60

/-- Loop state on entry to the `while` loop. -/
def initState (rows : List (Option String)) : LoopState :=
  { pending := mkJobs rows, completed := [], errors := [], rounds := 0, sleepRounds := [] }

/-- Observable outcome of `processar`: the saved `resultados["data"]`
(with ghost job snapshots), the final `self.error_ids` after the sweep
`self.error_ids.extend(self.pending_ids)` (lines 186-192), the pending
list at loop exit, the final `iteracao`, and the ghost sleep record. -/
structure Result where
  resultados : List (Job × Resposta)
  error_ids : List Job
  finalPending : List Job
  rounds : Nat
  sleepRounds : List Nat
deriving DecidableEq

/-- Embedding of `DeforestationIDFetcher.processar` (lines 86-192),
file output omitted. -/
def processar (oracle : Nat → String → HttpOutcome) (rows : List (Option String)) : Result :=
  let s := runLoop oracle maxIteracoes (initState rows)
  { resultados := s.completed
    error_ids := s.errors ++ s.pending
    finalPending := s.pending
    rounds := s.rounds
    sleepRounds := s.sleepRounds }

/-- Response shape of a successful completion seen through a `Task`
entry: first record has a `Task` list whose first element's upper-cased
status is `COMPLETED`, and a non-null `analysisResults`. -/
def isCompletedTaskResp (r : Resposta) : Bool :=
  match r.data with
  | some (registro :: _) =>
    match registro.task with
    | t :: _ =>
      decide (pyUpper ((t.status).getD "") = "COMPLETED") &&
        (registro.analysisResults).isSome
    | [] => false
  | _ => false

/-- Response shape that the source treats as terminal failure: first
record has a `Task` list whose first element's upper-cased status is
`ERROR`. -/
def isErrorTaskResp (r : Resposta) : Bool :=
  match r.data with
  | some (registro :: _) =>
    match registro.task with
    | t :: _ => decide (pyUpper ((t.status).getD "") = "ERROR")
    | [] => false
  | _ => false

/-- Response without a valid payload: `resposta` falsy, no `"data"` key,
or an empty `data` list (the `else` of line 130). -/
def invalidResp (r : Resposta) : Bool :=
  match r.data with
  | some (_ :: _) => false
  | _ => true

section Sanity

example :
    processItem ⟨some [⟨[⟨some "completed"⟩], some "x"⟩]⟩ ⟨0, "A", 2, ""⟩ =
      (⟨0, "A", 3, "COMPLETED"⟩, .completed) := by decide

example :
    processItem ⟨some [⟨[⟨some "COMPLETED"⟩], none⟩]⟩ ⟨0, "A", 0, ""⟩ =
      (⟨0, "A", 1, "COMPLETED"⟩, .stillPending) := by decide

example :
    processItem ⟨some [⟨[], some "x"⟩]⟩ ⟨1, "B", 0, ""⟩ =
      (⟨1, "B", 1, ""⟩, .completed) := by decide

example :
    processItem ⟨none⟩ ⟨1, "B", 4, "PROCESSING"⟩ =
      (⟨1, "B", 5, "PROCESSING"⟩, .stillPending) := by decide

example :
    (processar (fun _ _ => .exn) [some "A"]).rounds = maxIteracoes := by decide

example :
    (processar (fun _ _ => .exn) [some "A"]).sleepRounds =
      [1, 2, 3, 4, 5, 6, 7, 8, 9, 10] := by decide

example :
    (processar (fun _ _ => .exn) [some "A"]).error_ids = [⟨0, "A", 10, ""⟩] := by decide

example :
    (processar (fun _ _ => .body ⟨some [⟨[⟨some "Completed"⟩], some "ok"⟩]⟩)
      [none, some "A", some "B"]).rounds = 1 := by decide

end Sanity

section BasicLemmas

theorem processItem_index (r : Resposta) (j : Job) :
    (processItem r j).1.index = j.index := by
  unfold processItem
  dsimp only
  repeat' split <;> try rfl

theorem processItem_id (r : Resposta) (j : Job) :
    (processItem r j).1.id = j.id := by
  unfold processItem
  dsimp only
  repeat' split <;> try rfl

theorem processItem_attempts (r : Resposta) (j : Job) :
    (processItem r j).1.attempts = j.attempts + 1 := by
  unfold processItem
  dsimp only
  repeat' split <;> try rfl

theorem runLoop_zero (oracle : Nat → String → HttpOutcome) (s : LoopState) :
    runLoop oracle 0 s = s := rfl

theorem runLoop_succ (oracle : Nat → String → HttpOutcome) (n : Nat) (s : LoopState) :
    runLoop oracle (n + 1) s =
      if s.pending.isEmpty then s else runLoop oracle n (stepRound oracle s) := rfl

theorem runLoop_of_empty (oracle : Nat → String → HttpOutcome) (n : Nat) (s : LoopState)
    (h : s.pending = []) : runLoop oracle n s = s := by
  cases n with
  | zero => rfl
  | succ n => simp [runLoop_succ, h]

theorem runLoop_add (oracle : Nat → String → HttpOutcome) (a b : Nat) (s : LoopState) :
    runLoop oracle (a + b) s = runLoop oracle b (runLoop oracle a s) := by
  induction a generalizing s with
  | zero => rw [Nat.zero_add, runLoop_zero]
  | succ a ih =>
    rw [show a + 1 + b = (a + b) + 1 by omega, runLoop_succ, runLoop_succ]
    by_cases h : s.pending.isEmpty
    · rw [if_pos h, if_pos h, runLoop_of_empty _ _ _ (List.isEmpty_iff.mp h)]
    · rw [if_neg h, if_neg h, ih]

theorem stepRound_rounds (oracle : Nat → String → HttpOutcome) (s : LoopState) :
    (stepRound oracle s).rounds = s.rounds + 1 := rfl

theorem runLoop_rounds_of_pending (oracle : Nat → String → HttpOutcome) (n : Nat)
    (s : LoopState) (h : (runLoop oracle n s).pending ≠ []) :
    (runLoop oracle n s).rounds = s.rounds + n := by
  induction n generalizing s with
  | zero => simp [runLoop_zero]
  | succ n ih =>
    rw [runLoop_succ] at h ⊢
    by_cases he : s.pending.isEmpty
    · rw [if_pos he] at h
      exact absurd (List.isEmpty_iff.mp he) h
    · rw [if_neg he] at h ⊢
      rw [ih _ h, stepRound_rounds]
      omega

theorem stepRound_completed (oracle : Nat → String → HttpOutcome) (s : LoopState) :
    (stepRound oracle s).completed =
      s.completed ++ (runRound (oracle (s.rounds + 1)) s.pending).2.1 := rfl

theorem stepRound_errors (oracle : Nat → String → HttpOutcome) (s : LoopState) :
    (stepRound oracle s).errors =
      s.errors ++ (runRound (oracle (s.rounds + 1)) s.pending).2.2 := rfl

theorem runLoop_completed_mono (oracle : Nat → String → HttpOutcome) (n : Nat)
    (s : LoopState) (x : Job × Resposta) (hx : x ∈ s.completed) :
    x ∈ (runLoop oracle n s).completed := by
  induction n generalizing s with
  | zero => exact hx
  | succ n ih =>
    rw [runLoop_succ]
    by_cases he : s.pending.isEmpty
    · rwa [if_pos he]
    · rw [if_neg he]
      exact ih _ (by rw [stepRound_completed]; exact List.mem_append_left _ hx)

theorem runLoop_errors_mono (oracle : Nat → String → HttpOutcome) (n : Nat)
    (s : LoopState) (x : Job) (hx : x ∈ s.errors) :
    x ∈ (runLoop oracle n s).errors := by
  induction n generalizing s with
  | zero => exact hx
  | succ n ih =>
    rw [runLoop_succ]
    by_cases he : s.pending.isEmpty
    · rwa [if_pos he]
    · rw [if_neg he]
      exact ih _ (by rw [stepRound_errors]; exact List.mem_append_left _ hx)

end BasicLemmas

section PermLemmas

theorem runRound_perm (o : String → HttpOutcome) (p : List Job) :
    ((runRound o p).2.1.map (fun q => q.1.index) ++ (runRound o p).2.2.map Job.index
      ++ (runRound o p).1.map Job.index).Perm (p.map Job.index) := by
  induction p with
  | nil => simp [runRound]
  | cons item rest ih =>
    unfold runRound
    dsimp only
    split
    · simp only [List.map_cons, List.cons_append, processItem_index]
      exact ih.cons item.index
    · simp only [List.map_cons, processItem_index]
      exact List.perm_middle.trans (ih.cons item.index)
    · simp only [List.map_cons, List.cons_append, processItem_index]
      exact (List.perm_middle.append_right _).trans (ih.cons item.index)

/-- Multiset of job indices tracked by a loop state, over the three
buckets completed, errors, pending. -/
def stateIdx (s : LoopState) : List Nat :=
  s.completed.map (fun q => q.1.index) ++ s.errors.map Job.index ++ s.pending.map Job.index

theorem stepRound_perm (oracle : Nat → String → HttpOutcome) (s : LoopState) :
    (stateIdx (stepRound oracle s)).Perm (stateIdx s) := by
  have h := runRound_perm (oracle (s.rounds + 1)) s.pending
  unfold stateIdx stepRound
  dsimp only
  rw [← Multiset.coe_eq_coe] at h ⊢
  simp only [← Multiset.coe_add, List.map_append] at h ⊢
  rw [← h]
  abel

theorem runLoop_perm (oracle : Nat → String → HttpOutcome) (n : Nat) (s : LoopState) :
    (stateIdx (runLoop oracle n s)).Perm (stateIdx s) := by
  induction n generalizing s with
  | zero => rw [runLoop_zero]
  | succ n ih =>
    rw [runLoop_succ]
    by_cases he : s.pending.isEmpty
    · rw [if_pos he]
    · rw [if_neg he]
      exact (ih _).trans (stepRound_perm oracle s)

end PermLemmas

section MkJobsLemmas

theorem mkJobsFrom_index_ge (rows : List (Option String)) :
    ∀ (n : Nat), ∀ j ∈ mkJobsFrom n rows, n ≤ j.index := by
  induction rows with
  | nil => intro n j hj; simp [mkJobsFrom] at hj
  | cons c rest ih =>
    intro n j hj
    cases c with
    | none =>
      simp only [mkJobsFrom] at hj
      have := ih (n + 1) j hj
      omega
    | some v =>
      simp only [mkJobsFrom, List.mem_cons] at hj
      rcases hj with rfl | hj
      · exact le_rfl
      · have := ih (n + 1) j hj
        omega

theorem mkJobsFrom_nodup (rows : List (Option String)) :
    ∀ (n : Nat), ((mkJobsFrom n rows).map Job.index).Nodup := by
  induction rows with
  | nil => intro n; simp [mkJobsFrom]
  | cons c rest ih =>
    intro n
    cases c with
    | none => simpa [mkJobsFrom] using ih (n + 1)
    | some v =>
      simp only [mkJobsFrom, List.map_cons, List.nodup_cons]
      refine ⟨?_, ih (n + 1)⟩
      intro hmem
      simp only [List.mem_map] at hmem
      obtain ⟨j, hj, hje⟩ := hmem
      have := mkJobsFrom_index_ge rest (n + 1) j hj
      have hje2 : j.index = n := hje
      omega

theorem mkJobsFrom_length (rows : List (Option String)) :
    ∀ (n : Nat), (mkJobsFrom n rows).length = rows.countP (fun c => c.isSome) := by
  induction rows with
  | nil => intro n; simp [mkJobsFrom]
  | cons c rest ih =>
    intro n
    cases c with
    | none => simp [mkJobsFrom, List.countP_cons, ih]
    | some v => simp [mkJobsFrom, List.countP_cons, ih]

theorem mkJobsFrom_attempts (rows : List (Option String)) :
    ∀ (n : Nat), ∀ j ∈ mkJobsFrom n rows, j.attempts = 0 := by
  induction rows with
  | nil => intro n j hj; simp [mkJobsFrom] at hj
  | cons c rest ih =>
    intro n j hj
    cases c with
    | none =>
      simp only [mkJobsFrom] at hj
      exact ih (n + 1) j hj
    | some v =>
      simp only [mkJobsFrom, List.mem_cons] at hj
      rcases hj with rfl | hj
      · rfl
      · exact ih (n + 1) j hj

theorem mkJobs_attempts (rows : List (Option String)) :
    ∀ j ∈ mkJobs rows, j.attempts = 0 := mkJobsFrom_attempts rows 0

end MkJobsLemmas

section AttemptsLemmas

theorem stepRound_pending (oracle : Nat → String → HttpOutcome) (s : LoopState) :
    (stepRound oracle s).pending = (runRound (oracle (s.rounds + 1)) s.pending).1 := rfl

theorem runRound_pending_attempts (o : String → HttpOutcome) (p : List Job) (k : Nat)
    (h : ∀ j ∈ p, j.attempts = k) :
    ∀ j ∈ (runRound o p).1, j.attempts = k + 1 := by
  induction p with
  | nil => intro j hj; simp [runRound] at hj
  | cons item rest ih =>
    intro j hj
    have hrest := ih (fun j hj => h j (List.mem_cons_of_mem _ hj))
    unfold runRound at hj
    dsimp only at hj
    split at hj
    · exact hrest j hj
    · rcases List.mem_cons.mp hj with rfl | hj
      · rw [processItem_attempts, h item (List.mem_cons_self _ _)]
      · exact hrest j hj
    · exact hrest j hj

theorem runRound_completed_attempts (o : String → HttpOutcome) (p : List Job) (k : Nat)
    (h : ∀ j ∈ p, j.attempts = k) :
    ∀ q ∈ (runRound o p).2.1, q.1.attempts = k + 1 := by
  induction p with
  | nil => intro q hq; simp [runRound] at hq
  | cons item rest ih =>
    intro q hq
    have hrest := ih (fun j hj => h j (List.mem_cons_of_mem _ hj))
    unfold runRound at hq
    dsimp only at hq
    split at hq
    · rcases List.mem_cons.mp hq with rfl | hq
      · simp only [processItem_attempts, h item (List.mem_cons_self _ _)]
      · exact hrest q hq
    · exact hrest q hq
    · exact hrest q hq

theorem runLoop_pending_attempts (oracle : Nat → String → HttpOutcome) (n : Nat)
    (s : LoopState) (h : ∀ j ∈ s.pending, j.attempts = s.rounds) :
    ∀ j ∈ (runLoop oracle n s).pending, j.attempts = (runLoop oracle n s).rounds := by
  induction n generalizing s with
  | zero => simpa [runLoop_zero] using h
  | succ n ih =>
    rw [runLoop_succ]
    by_cases he : s.pending.isEmpty
    · rw [if_pos he]; exact h
    · rw [if_neg he]
      refine ih _ ?_
      intro j hj
      rw [stepRound_rounds]
      exact runRound_pending_attempts _ _ _ h j (by rwa [stepRound_pending] at hj)

end AttemptsLemmas

section SleepLemmas

/-- Closed form of the ghost sleep record: a sleep happened after every
executed round except that the sleep after the last round happened
exactly when the pending list survived it. -/
def sleepSpec (s : LoopState) : List Nat :=
  if s.pending.isEmpty then List.range' 1 (s.rounds - 1) else List.range' 1 s.rounds

theorem stepRound_sleepSpec (oracle : Nat → String → HttpOutcome) (s : LoopState)
    (hne : ¬s.pending.isEmpty) (h : s.sleepRounds = sleepSpec s) :
    (stepRound oracle s).sleepRounds = sleepSpec (stepRound oracle s) := by
  have hs : sleepSpec s = List.range' 1 s.rounds := by rw [sleepSpec, if_neg hne]
  unfold stepRound sleepSpec
  dsimp only
  by_cases hnp : (runRound (oracle (s.rounds + 1)) s.pending).1.isEmpty
  · rw [if_pos hnp, if_pos hnp, h, hs, Nat.add_sub_cancel]
  · rw [if_neg hnp, if_neg hnp, h, hs, List.range'_concat]
    norm_num
    omega

theorem runLoop_sleepSpec (oracle : Nat → String → HttpOutcome) (n : Nat) (s : LoopState)
    (h : s.sleepRounds = sleepSpec s) :
    (runLoop oracle n s).sleepRounds = sleepSpec (runLoop oracle n s) := by
  induction n generalizing s with
  | zero => simpa [runLoop_zero] using h
  | succ n ih =>
    rw [runLoop_succ]
    by_cases he : s.pending.isEmpty
    · rw [if_pos he]; exact h
    · rw [if_neg he]
      exact ih _ (stepRound_sleepSpec oracle s he h)

end SleepLemmas

section ShapeLemmas

theorem processItem_of_invalid (r : Resposta) (j : Job) (h : invalidResp r = true) :
    processItem r j = ({ j with attempts := j.attempts + 1 }, .stillPending) := by
  rcases r with ⟨d⟩
  match d with
  | none => rfl
  | some [] => rfl
  | some (reg :: rest) => simp [invalidResp] at h

theorem processItem_of_completedTask (r : Resposta) (j : Job)
    (h : isCompletedTaskResp r = true) :
    processItem r j =
      ({ j with attempts := j.attempts + 1, last_status := "COMPLETED" }, .completed) := by
  rcases r with ⟨d⟩
  match d with
  | none => simp [isCompletedTaskResp] at h
  | some [] => simp [isCompletedTaskResp] at h
  | some (reg :: rest) =>
    rcases reg with ⟨tl, ar⟩
    match tl with
    | [] => simp [isCompletedTaskResp] at h
    | t :: ts =>
      simp only [isCompletedTaskResp, Bool.and_eq_true, decide_eq_true_eq] at h
      obtain ⟨hst, har⟩ := h
      unfold processItem
      dsimp only
      rw [hst, if_pos ⟨rfl, har⟩]

theorem processItem_of_errorTask (r : Resposta) (j : Job)
    (h : isErrorTaskResp r = true) :
    processItem r j =
      ({ j with attempts := j.attempts + 1, last_status := "ERROR" }, .errored) := by
  rcases r with ⟨d⟩
  match d with
  | none => simp [isErrorTaskResp] at h
  | some [] => simp [isErrorTaskResp] at h
  | some (reg :: rest) =>
    rcases reg with ⟨tl, ar⟩
    match tl with
    | [] => simp [isErrorTaskResp] at h
    | t :: ts =>
      simp only [isErrorTaskResp, decide_eq_true_eq] at h
      unfold processItem
      dsimp only
      rw [h, if_neg (fun hc => absurd hc.1 (by decide)), if_neg (by decide), if_pos rfl]

theorem processItem_of_completedNull (r : Resposta) (j : Job) (reg : Registro)
    (rest : List Registro) (t : TaskItem) (ts : List TaskItem)
    (hd : r.data = some (reg :: rest)) (ht : reg.task = t :: ts)
    (hst : pyUpper ((t.status).getD "") = "COMPLETED")
    (har : reg.analysisResults = none) :
    processItem r j =
      ({ j with attempts := j.attempts + 1, last_status := "COMPLETED" }, .stillPending) := by
  rcases r with ⟨d⟩
  simp only at hd
  subst hd
  rcases reg with ⟨tl, ar⟩
  simp only at ht har
  subst ht
  subst har
  unfold processItem
  dsimp only
  rw [hst, if_neg (fun hc => by simpa using hc.2), if_neg (by decide), if_neg (by decide)]

end ShapeLemmas

section MembershipLemmas

theorem runRound_mem_pending (o : String → HttpOutcome) (p : List Job) (j j' : Job)
    (hj : j ∈ p) (hp : processItem (buscar_dados (o j.id)) j = (j', .stillPending)) :
    j' ∈ (runRound o p).1 := by
  induction p with
  | nil => cases hj
  | cons item rest ih =>
    unfold runRound
    dsimp only
    rcases List.mem_cons.mp hj with rfl | hj
    · rw [hp]
      exact List.mem_cons_self _ _
    · split
      · exact ih hj
      · exact List.mem_cons_of_mem _ (ih hj)
      · exact ih hj

theorem runRound_mem_completed (o : String → HttpOutcome) (p : List Job) (j j' : Job)
    (hj : j ∈ p) (hp : processItem (buscar_dados (o j.id)) j = (j', .completed)) :
    (j', buscar_dados (o j.id)) ∈ (runRound o p).2.1 := by
  induction p with
  | nil => cases hj
  | cons item rest ih =>
    unfold runRound
    dsimp only
    rcases List.mem_cons.mp hj with rfl | hj
    · rw [hp]
      exact List.mem_cons_self _ _
    · split
      · exact List.mem_cons_of_mem _ (ih hj)
      · exact ih hj
      · exact ih hj

theorem runRound_mem_errors (o : String → HttpOutcome) (p : List Job) (j j' : Job)
    (hj : j ∈ p) (hp : processItem (buscar_dados (o j.id)) j = (j', .errored)) :
    j' ∈ (runRound o p).2.2 := by
  induction p with
  | nil => cases hj
  | cons item rest ih =>
    unfold runRound
    dsimp only
    rcases List.mem_cons.mp hj with rfl | hj
    · rw [hp]
      exact List.mem_cons_self _ _
    · split
      · exact ih hj
      · exact ih hj
      · exact List.mem_cons_of_mem _ (ih hj)

theorem runRound_of_all_invalid (o : String → HttpOutcome) (p : List Job)
    (h : ∀ j ∈ p, invalidResp (buscar_dados (o j.id)) = true) :
    runRound o p = (p.map (fun j => { j with attempts := j.attempts + 1 }), [], []) := by
  induction p with
  | nil => rfl
  | cons item rest ih =>
    unfold runRound
    dsimp only
    rw [processItem_of_invalid _ _ (h item (List.mem_cons_self _ _)),
      ih (fun j hj => h j (List.mem_cons_of_mem _ hj))]
    rfl

theorem runRound_of_all_completed (o : String → HttpOutcome) (p : List Job)
    (h : ∀ j ∈ p, isCompletedTaskResp (buscar_dados (o j.id)) = true) :
    runRound o p =
      ([], p.map (fun j =>
        ({ j with attempts := j.attempts + 1, last_status := "COMPLETED" },
          buscar_dados (o j.id))), []) := by
  induction p with
  | nil => rfl
  | cons item rest ih =>
    unfold runRound
    dsimp only
    rw [processItem_of_completedTask _ _ (h item (List.mem_cons_self _ _)),
      ih (fun j hj => h j (List.mem_cons_of_mem _ hj))]
    rfl

end MembershipLemmas

section ProcessarProjections

theorem processar_resultados (oracle : Nat → String → HttpOutcome)
    (rows : List (Option String)) :
    (processar oracle rows).resultados =
      (runLoop oracle maxIteracoes (initState rows)).completed := rfl

theorem processar_error_ids (oracle : Nat → String → HttpOutcome)
    (rows : List (Option String)) :
    (processar oracle rows).error_ids =
      (runLoop oracle maxIteracoes (initState rows)).errors ++
        (runLoop oracle maxIteracoes (initState rows)).pending := rfl

theorem processar_finalPending (oracle : Nat → String → HttpOutcome)
    (rows : List (Option String)) :
    (processar oracle rows).finalPending =
      (runLoop oracle maxIteracoes (initState rows)).pending := rfl

theorem processar_rounds (oracle : Nat → String → HttpOutcome)
    (rows : List (Option String)) :
    (processar oracle rows).rounds =
      (runLoop oracle maxIteracoes (initState rows)).rounds := rfl

end ProcessarProjections

/-- C1: after `processar` terminates, every job created from a
non-empty identifier cell ends in exactly one of the completed set
(`resultados["data"]`) and the error set (`error_ids`); the two sets
are disjoint on job indices, and the number of completed entries plus
the number of error entries equals the number of non-empty input
identifiers — no job ends in a third, unknown outcome. -/
theorem claim_C1_partition (oracle : Nat → String → HttpOutcome)
    (rows : List (Option String)) :
    ((processar oracle rows).resultados.map (fun q => q.1.index)
        ++ (processar oracle rows).error_ids.map Job.index).Perm
      ((mkJobs rows).map Job.index)
    ∧ (processar oracle rows).resultados.length + (processar oracle rows).error_ids.length
        = rows.countP (fun c => c.isSome)
    ∧ (∀ i ∈ (processar oracle rows).resultados.map (fun q => q.1.index),
        i ∉ (processar oracle rows).error_ids.map Job.index)
    ∧ (∀ j ∈ mkJobs rows,
        (j.index ∈ (processar oracle rows).resultados.map (fun q => q.1.index)
            ∧ j.index ∉ (processar oracle rows).error_ids.map Job.index)
        ∨ (j.index ∈ (processar oracle rows).error_ids.map Job.index
            ∧ j.index ∉ (processar oracle rows).resultados.map (fun q => q.1.index))) := by
  have hperm0 := runLoop_perm oracle maxIteracoes (initState rows)
  have hinit : stateIdx (initState rows) = (mkJobs rows).map Job.index := by
    unfold stateIdx initState
    simp
  rw [hinit] at hperm0
  have hassoc : (processar oracle rows).resultados.map (fun q => q.1.index)
      ++ (processar oracle rows).error_ids.map Job.index =
      stateIdx (runLoop oracle maxIteracoes (initState rows)) := by
    rw [processar_resultados, processar_error_ids]
    unfold stateIdx
    rw [List.map_append, List.append_assoc]
  have hperm : ((processar oracle rows).resultados.map (fun q => q.1.index)
      ++ (processar oracle rows).error_ids.map Job.index).Perm
      ((mkJobs rows).map Job.index) := by
    rw [hassoc]; exact hperm0
  have hnodupInit : ((mkJobs rows).map Job.index).Nodup := mkJobsFrom_nodup rows 0
  have hnodup := (hperm.nodup_iff).mpr hnodupInit
  obtain ⟨-, -, hdisj⟩ := List.nodup_append.mp hnodup
  refine ⟨hperm, ?_, ?_, ?_⟩
  · have hlen := hperm.length_eq
    rw [List.length_append, List.length_map, List.length_map, List.length_map] at hlen
    exact hlen.trans (mkJobsFrom_length rows 0)
  · exact fun i hi hj => hdisj hi hj
  · intro j hj
    have hmem : j.index ∈ (processar oracle rows).resultados.map (fun q => q.1.index)
        ++ (processar oracle rows).error_ids.map Job.index :=
      hperm.mem_iff.mpr (List.mem_map_of_mem Job.index hj)
    rcases List.mem_append.mp hmem with h | h
    · exact Or.inl ⟨h, fun hc => hdisj h hc⟩
    · exact Or.inr ⟨h, fun hc => hdisj hc h⟩

/-- Witness for C1 at a concrete run: one identifier that always
errors at transport level and one blank cell; sizes add up. -/
theorem claim_C1_partition_witness :
    (processar (fun _ _ => HttpOutcome.exn) [some "A", none]).resultados.length
        + (processar (fun _ _ => HttpOutcome.exn) [some "A", none]).error_ids.length
      = ([some "A", none] : List (Option String)).countP (fun c => c.isSome) :=
  (claim_C1_partition (fun _ _ => HttpOutcome.exn) [some "A", none]).2.1

/-- C3: a job still pending when the round budget of 10 is exhausted is
appended to the error set (not discarded) and its attempts counter
equals `max_iteracoes = 10`. -/
theorem claim_C3_exhaustion (oracle : Nat → String → HttpOutcome)
    (rows : List (Option String)) (j : Job)
    (h : j ∈ (processar oracle rows).finalPending) :
    j ∈ (processar oracle rows).error_ids ∧ j.attempts = maxIteracoes := by
  rw [processar_finalPending] at h
  constructor
  · rw [processar_error_ids]
    exact List.mem_append_right _ h
  · have hne : (runLoop oracle maxIteracoes (initState rows)).pending ≠ [] :=
      fun hc => by rw [hc] at h; cases h
    have hrounds := runLoop_rounds_of_pending oracle maxIteracoes (initState rows) hne
    have hatt := runLoop_pending_attempts oracle maxIteracoes (initState rows)
      (fun j hj => mkJobs_attempts rows j hj) j h
    rw [hatt, hrounds]
    rfl

/-- Witness for C3: a single identifier whose polls always fail at
transport level stays pending through all 10 rounds and lands in the
error set with 10 attempts. -/
theorem claim_C3_exhaustion_witness :
    (⟨0, "A", 10, ""⟩ : Job) ∈ (processar (fun _ _ => HttpOutcome.exn) [some "A"]).finalPending
    ∧ (⟨0, "A", 10, ""⟩ : Job) ∈ (processar (fun _ _ => HttpOutcome.exn) [some "A"]).error_ids
    ∧ (10 : Nat) = maxIteracoes :=
  ⟨by decide,
    (claim_C3_exhaustion (fun _ _ => HttpOutcome.exn) [some "A"] ⟨0, "A", 10, ""⟩
      (by decide)).1,
    (claim_C3_exhaustion (fun _ _ => HttpOutcome.exn) [some "A"] ⟨0, "A", 10, ""⟩
      (by decide)).2⟩

/-- C6 as stated is false: the source sleeps whenever the pending list
is non-empty after a round, with no check that further rounds remain,
so with a job that never resolves a sleep is invoked after the final
(10th) round as well. -/
theorem claim_C6_counterexample :
    ¬ (∀ r ∈ (processar (fun _ _ => HttpOutcome.exn) [some "A"]).sleepRounds,
        r < maxIteracoes) := by
  decide

/-- C6 amended: the fixed delay is `D = 60`, and a sleep is invoked
after a round exactly when the pending set is still non-empty at the
end of that round — including after the final round when jobs remain
unresolved; sleeps therefore occur after rounds `1 .. rounds-1` always,
and after the last executed round exactly when the run ends with a
non-empty pending set. -/
theorem claim_C6_amended (oracle : Nat → String → HttpOutcome)
    (rows : List (Option String)) :
    sleepSeconds = 60 ∧
    (processar oracle rows).sleepRounds =
      (if (processar oracle rows).finalPending.isEmpty
        then List.range' 1 ((processar oracle rows).rounds - 1)
        else List.range' 1 (processar oracle rows).rounds) := by
  refine ⟨rfl, ?_⟩
  have h0 : (initState rows).sleepRounds = sleepSpec (initState rows) := by
    unfold sleepSpec initState
    dsimp only
    split <;> rfl
  have h := runLoop_sleepSpec oracle maxIteracoes (initState rows) h0
  exact h

/-- C10: for a poll response with a non-empty `data` array, the
classification (and the job mutation) depends only on the first
record's first `Task` status and its `analysisResults`: two responses
that agree on those but differ in later `data` records or later `Task`
entries are processed identically. -/
theorem claim_C10_classification (j : Job) (reg1 reg2 : Registro)
    (rest1 rest2 : List Registro)
    (hT : reg1.task.head?.map TaskItem.status = reg2.task.head?.map TaskItem.status)
    (hA : reg1.analysisResults = reg2.analysisResults) :
    processItem ⟨some (reg1 :: rest1)⟩ j = processItem ⟨some (reg2 :: rest2)⟩ j := by
  rcases reg1 with ⟨tl1, ar1⟩
  rcases reg2 with ⟨tl2, ar2⟩
  simp only at hT hA
  subst hA
  match tl1, tl2, hT with
  | [], [], _ => rfl
  | [], t2 :: ts2, hT => simp [List.head?] at hT
  | t1 :: ts1, [], hT => simp [List.head?] at hT
  | t1 :: ts1, t2 :: ts2, hT =>
    simp only [List.head?, Option.map_some', Option.some.injEq] at hT
    unfold processItem
    dsimp only
    rw [hT]

/-- Witness for C10: a response with two `Task` entries and junk in the
tail of `data` is classified exactly like a minimal one that agrees on
`Task[0].status` and `analysisResults`. -/
theorem claim_C10_classification_witness :
    processItem ⟨some [⟨[⟨some "PROCESSING"⟩, ⟨some "ERROR"⟩], none⟩,
        ⟨[⟨some "ERROR"⟩], some "junk"⟩]⟩ ⟨0, "A", 0, ""⟩
      = processItem ⟨some [⟨[⟨some "PROCESSING"⟩], none⟩]⟩ ⟨0, "A", 0, ""⟩ :=
  claim_C10_classification ⟨0, "A", 0, ""⟩
    ⟨[⟨some "PROCESSING"⟩, ⟨some "ERROR"⟩], none⟩ ⟨[⟨some "PROCESSING"⟩], none⟩
    [⟨[⟨some "ERROR"⟩], some "junk"⟩] [] (by decide) (by decide)

theorem initState_pending (rows : List (Option String)) :
    (initState rows).pending = mkJobs rows := rfl

theorem stateIdx_init (rows : List (Option String)) :
    stateIdx (initState rows) = (mkJobs rows).map Job.index := by
  unfold stateIdx initState
  simp

theorem stateIdx_mem_iff (oracle : Nat → String → HttpOutcome) (m : Nat)
    (rows : List (Option String)) (i : Nat) :
    (i ∈ stateIdx (runLoop oracle m (initState rows)) ↔
      i ∈ (mkJobs rows).map Job.index) := by
  have hperm := runLoop_perm oracle m (initState rows)
  rw [stateIdx_init] at hperm
  exact hperm.mem_iff

theorem mkJobsFrom_not_mem_of_none (rows : List (Option String)) :
    ∀ (n i : Nat), rows.get? i = some none →
      (n + i) ∉ ((mkJobsFrom n rows).map Job.index) := by
  induction rows with
  | nil => intro n i hi; simp at hi
  | cons c rest ih =>
    intro n i hi
    cases i with
    | zero =>
      simp only [List.get?_cons_zero, Option.some.injEq] at hi
      subst hi
      simp only [mkJobsFrom]
      intro hmem
      simp only [List.mem_map] at hmem
      obtain ⟨j, hj, hje⟩ := hmem
      have h1 := mkJobsFrom_index_ge rest (n + 1) j hj
      omega
    | succ i =>
      have hi2 : rest.get? i = some none := hi
      cases c with
      | none =>
        simp only [mkJobsFrom]
        rw [show n + (i + 1) = (n + 1) + i by omega]
        exact ih (n + 1) i hi2
      | some v =>
        simp only [mkJobsFrom, List.map_cons, List.mem_cons]
        rintro (h | hmem)
        · have h2 : n + (i + 1) = n := h
          omega
        · rw [show n + (i + 1) = (n + 1) + i by omega] at hmem
          exact ih (n + 1) i hi2 hmem

/-- C2: a poll whose first record carries a Task status `COMPLETED` but
a null `analysisResults` payload is not treated as a success: the item
is classified still-pending (with `last_status` set to `COMPLETED`) and
lands in the `new_pending` list for the next round. -/
theorem claim_C2_completed_null (o : String → HttpOutcome) (p : List Job) (j : Job)
    (reg : Registro) (rest : List Registro) (t : TaskItem) (ts : List TaskItem)
    (hj : j ∈ p)
    (hd : (buscar_dados (o j.id)).data = some (reg :: rest))
    (ht : reg.task = t :: ts)
    (hst : pyUpper ((t.status).getD "") = "COMPLETED")
    (har : reg.analysisResults = none) :
    processItem (buscar_dados (o j.id)) j =
      ({ j with attempts := j.attempts + 1, last_status := "COMPLETED" }, .stillPending)
    ∧ { j with attempts := j.attempts + 1, last_status := "COMPLETED" } ∈ (runRound o p).1 := by
  have hpi := processItem_of_completedNull (buscar_dados (o j.id)) j reg rest t ts hd ht hst har
  exact ⟨hpi, runRound_mem_pending o p j _ hj hpi⟩

/-- Witness for C2: concrete COMPLETED-with-null response keeps the job
pending. -/
theorem claim_C2_completed_null_witness :
    processItem (buscar_dados ((fun _ => HttpOutcome.body
        ⟨some [⟨[⟨some "COMPLETED"⟩], none⟩]⟩) "A")) ⟨0, "A", 0, ""⟩ =
      ((⟨0, "A", 1, "COMPLETED"⟩ : Job), .stillPending)
    ∧ (⟨0, "A", 1, "COMPLETED"⟩ : Job) ∈
        (runRound (fun _ => HttpOutcome.body ⟨some [⟨[⟨some "COMPLETED"⟩], none⟩]⟩)
          [⟨0, "A", 0, ""⟩]).1 :=
  claim_C2_completed_null (fun _ => HttpOutcome.body ⟨some [⟨[⟨some "COMPLETED"⟩], none⟩]⟩)
    [⟨0, "A", 0, ""⟩] ⟨0, "A", 0, ""⟩ ⟨[⟨some "COMPLETED"⟩], none⟩ [] ⟨some "COMPLETED"⟩ []
    (by decide) rfl rfl (by decide) rfl

/-- C7: a transport-level error is turned into `{}` by `buscar_dados`
and is therefore an invalid response; any invalid response (no `data`
key or empty `data` array) leaves the job pending with only its
attempts counter incremented, the job is carried into the next round's
pending list, and a round in which every poll is invalid completes
normally, keeping every job and terminating nothing. -/
theorem claim_C7_transport_error (o : String → HttpOutcome) (p : List Job) (j : Job)
    (hj : j ∈ p)
    (hr : invalidResp (buscar_dados (o j.id)) = true) :
    invalidResp (buscar_dados HttpOutcome.exn) = true
    ∧ processItem (buscar_dados (o j.id)) j =
        ({ j with attempts := j.attempts + 1 }, .stillPending)
    ∧ { j with attempts := j.attempts + 1 } ∈ (runRound o p).1
    ∧ ((∀ x ∈ p, invalidResp (buscar_dados (o x.id)) = true) →
        runRound o p = (p.map (fun x => { x with attempts := x.attempts + 1 }), [], [])) := by
  have hpi := processItem_of_invalid (buscar_dados (o j.id)) j hr
  exact ⟨rfl, hpi, runRound_mem_pending o p j _ hj hpi,
    fun hall => runRound_of_all_invalid o p hall⟩

/-- Witness for C7: a concrete transport failure keeps the job pending
with one more attempt. -/
theorem claim_C7_transport_error_witness :
    processItem (buscar_dados ((fun _ => HttpOutcome.exn) "A")) ⟨0, "A", 3, "PROCESSING"⟩ =
      ((⟨0, "A", 4, "PROCESSING"⟩ : Job), .stillPending)
    ∧ (⟨0, "A", 4, "PROCESSING"⟩ : Job) ∈
        (runRound (fun _ => HttpOutcome.exn) [⟨0, "A", 3, "PROCESSING"⟩]).1 :=
  ⟨(claim_C7_transport_error (fun _ => HttpOutcome.exn) [⟨0, "A", 3, "PROCESSING"⟩]
      ⟨0, "A", 3, "PROCESSING"⟩ (by decide) rfl).2.1,
    (claim_C7_transport_error (fun _ => HttpOutcome.exn) [⟨0, "A", 3, "PROCESSING"⟩]
      ⟨0, "A", 3, "PROCESSING"⟩ (by decide) rfl).2.2.1⟩

/-- C8: a row whose identifier cell is empty/missing never becomes a
job: its index is not in the initial pending list, is never in the
pending list of any round (so it is never polled), and appears in
neither the completed nor the error output. -/
theorem claim_C8_blank_skipped (oracle : Nat → String → HttpOutcome)
    (rows : List (Option String)) (i : Nat) (hi : rows.get? i = some none) :
    i ∉ ((mkJobs rows).map Job.index)
    ∧ (∀ m, i ∉ ((runLoop oracle m (initState rows)).pending.map Job.index))
    ∧ i ∉ ((processar oracle rows).resultados.map (fun q => q.1.index))
    ∧ i ∉ ((processar oracle rows).error_ids.map Job.index) := by
  have hnot : i ∉ ((mkJobs rows).map Job.index) := by
    have := mkJobsFrom_not_mem_of_none rows 0 i hi
    simpa using this
  refine ⟨hnot, ?_, ?_, ?_⟩
  · intro m hmem
    exact hnot ((stateIdx_mem_iff oracle m rows i).mp
      (List.mem_append_right _ hmem))
  · intro hmem
    rw [processar_resultados] at hmem
    exact hnot ((stateIdx_mem_iff oracle maxIteracoes rows i).mp
      (List.mem_append_left _ (List.mem_append_left _ hmem)))
  · intro hmem
    rw [processar_error_ids, List.map_append] at hmem
    rcases List.mem_append.mp hmem with h | h
    · exact hnot ((stateIdx_mem_iff oracle maxIteracoes rows i).mp
        (List.mem_append_left _ (List.mem_append_right _ h)))
    · exact hnot ((stateIdx_mem_iff oracle maxIteracoes rows i).mp
        (List.mem_append_right _ h))

/-- Witness for C8: with rows `[blank, "A"]`, index 0 is nowhere in the
outputs of a concrete run. -/
theorem claim_C8_blank_skipped_witness :
    (0 : Nat) ∉ ((mkJobs [none, some "A"]).map Job.index)
    ∧ (0 : Nat) ∉ ((processar (fun _ _ => HttpOutcome.exn)
        [none, some "A"]).resultados.map (fun q => q.1.index))
    ∧ (0 : Nat) ∉ ((processar (fun _ _ => HttpOutcome.exn)
        [none, some "A"]).error_ids.map Job.index) :=
  ⟨(claim_C8_blank_skipped (fun _ _ => HttpOutcome.exn) [none, some "A"] 0 rfl).1,
    (claim_C8_blank_skipped (fun _ _ => HttpOutcome.exn) [none, some "A"] 0 rfl).2.2.1,
    (claim_C8_blank_skipped (fun _ _ => HttpOutcome.exn) [none, some "A"] 0 rfl).2.2.2⟩

/-- C9 as stated is false at the empty job list: with no jobs the
hypothesis of the claim holds vacuously, yet the `while` loop never
runs, so `processar` terminates after 0 rounds rather than exactly 1. -/
theorem claim_C9_counterexample :
    mkJobs ([] : List (Option String)) = []
    ∧ ¬ (processar (fun _ _ => HttpOutcome.exn) ([] : List (Option String))).rounds = 1 := by
  decide

/-- C9 amended: when the job list is non-empty and every identifier's
round-1 poll returns Task status COMPLETED with a non-null result,
`processar` terminates after exactly one round, never sleeps, reports
no errors, and the completed set holds exactly one entry per job, with
`attempts = 1` and `last_status = "COMPLETED"`. -/
theorem claim_C9_amended (oracle : Nat → String → HttpOutcome)
    (rows : List (Option String)) (hne : mkJobs rows ≠ [])
    (h : ∀ j ∈ mkJobs rows, isCompletedTaskResp (buscar_dados (oracle 1 j.id)) = true) :
    (processar oracle rows).rounds = 1
    ∧ (processar oracle rows).sleepRounds = []
    ∧ (processar oracle rows).error_ids = []
    ∧ (processar oracle rows).resultados =
        (mkJobs rows).map (fun j =>
          ({ j with attempts := 1, last_status := "COMPLETED" },
            buscar_dados (oracle 1 j.id))) := by
  have hround := runRound_of_all_completed (oracle 1) (mkJobs rows) h
  have hstepEq : stepRound oracle (initState rows) =
      { pending := []
        completed := (mkJobs rows).map (fun j =>
          ({ j with attempts := j.attempts + 1, last_status := "COMPLETED" },
            buscar_dados (oracle 1 j.id)))
        errors := []
        rounds := 1
        sleepRounds := [] } := by
    unfold stepRound initState
    dsimp only
    rw [Nat.zero_add, hround]
    rfl
  have hne2 : ¬ (initState rows).pending.isEmpty := by
    rw [initState_pending]
    simpa [List.isEmpty_iff] using hne
  have hloop : runLoop oracle maxIteracoes (initState rows) =
      stepRound oracle (initState rows) := by
    have h1 : runLoop oracle 1 (initState rows) = stepRound oracle (initState rows) := by
      rw [runLoop_succ, if_neg hne2, runLoop_zero]
    have h19 : maxIteracoes = 1 + 9 := rfl
    rw [h19, runLoop_add, h1]
    exact runLoop_of_empty oracle 9 _ (by rw [hstepEq])
  have hmap : (mkJobs rows).map (fun j =>
        (({ j with attempts := j.attempts + 1, last_status := "COMPLETED" } : Job),
          buscar_dados (oracle 1 j.id))) =
      (mkJobs rows).map (fun j =>
        (({ j with attempts := 1, last_status := "COMPLETED" } : Job),
          buscar_dados (oracle 1 j.id))) := by
    refine List.map_congr_left ?_
    intro j hj
    have h0 := mkJobs_attempts rows j hj
    rw [h0]
  refine ⟨?_, ?_, ?_, ?_⟩
  · rw [processar_rounds, hloop, hstepEq]
  · show (runLoop oracle maxIteracoes (initState rows)).sleepRounds = []
    rw [hloop, hstepEq]
  · rw [processar_error_ids, hloop, hstepEq]
    rfl
  · rw [processar_resultados, hloop, hstepEq]
    exact hmap

/-- Witness for the amended C9: two ids that complete on round 1. -/
theorem claim_C9_amended_witness :
    (processar (fun _ _ => HttpOutcome.body ⟨some [⟨[⟨some "completed"⟩], some "ok"⟩]⟩)
        [some "A", none, some "B"]).rounds = 1
    ∧ (processar (fun _ _ => HttpOutcome.body ⟨some [⟨[⟨some "completed"⟩], some "ok"⟩]⟩)
        [some "A", none, some "B"]).sleepRounds = []
    ∧ (processar (fun _ _ => HttpOutcome.body ⟨some [⟨[⟨some "completed"⟩], some "ok"⟩]⟩)
        [some "A", none, some "B"]).error_ids = [] :=
  ⟨(claim_C9_amended (fun _ _ => HttpOutcome.body ⟨some [⟨[⟨some "completed"⟩], some "ok"⟩]⟩)
      [some "A", none, some "B"] (by decide) (by decide)).1,
    (claim_C9_amended (fun _ _ => HttpOutcome.body ⟨some [⟨[⟨some "completed"⟩], some "ok"⟩]⟩)
      [some "A", none, some "B"] (by decide) (by decide)).2.1,
    (claim_C9_amended (fun _ _ => HttpOutcome.body ⟨some [⟨[⟨some "completed"⟩], some "ok"⟩]⟩)
      [some "A", none, some "B"] (by decide) (by decide)).2.2.1⟩

theorem initState_rounds (rows : List (Option String)) : (initState rows).rounds = 0 := rfl

theorem runLoop_peel (oracle : Nat → String → HttpOutcome) (a c : Nat) (s : LoopState)
    (hne : (runLoop oracle a s).pending ≠ []) :
    runLoop oracle (a + (c + 1)) s =
      runLoop oracle c (stepRound oracle (runLoop oracle a s)) := by
  rw [runLoop_add, runLoop_succ, if_neg (by simpa [List.isEmpty_iff] using hne)]

theorem stage_nodup_parts (oracle : Nat → String → HttpOutcome) (m : Nat)
    (rows : List (Option String)) :
    ((runLoop oracle m (initState rows)).completed.map (fun q => q.1.index)).Nodup
    ∧ ((runLoop oracle m (initState rows)).errors.map Job.index).Nodup
    ∧ ((runLoop oracle m (initState rows)).pending.map Job.index).Nodup
    ∧ List.Disjoint
        ((runLoop oracle m (initState rows)).completed.map (fun q => q.1.index))
        ((runLoop oracle m (initState rows)).errors.map Job.index)
    ∧ List.Disjoint
        ((runLoop oracle m (initState rows)).completed.map (fun q => q.1.index)
          ++ (runLoop oracle m (initState rows)).errors.map Job.index)
        ((runLoop oracle m (initState rows)).pending.map Job.index) := by
  have hperm := runLoop_perm oracle m (initState rows)
  rw [stateIdx_init] at hperm
  have hnodup := hperm.nodup_iff.mpr (mkJobsFrom_nodup rows 0)
  unfold stateIdx at hnodup
  obtain ⟨hab, hcp, hdisj1⟩ := List.nodup_append.mp hnodup
  obtain ⟨ha, hb, hdisj2⟩ := List.nodup_append.mp hab
  exact ⟨ha, hb, hcp, hdisj2, hdisj1⟩

theorem runLoop_rounds_init (oracle : Nat → String → HttpOutcome) (k : Nat)
    (rows : List (Option String))
    (hne : (runLoop oracle k (initState rows)).pending ≠ []) :
    (runLoop oracle k (initState rows)).rounds = k := by
  rw [runLoop_rounds_of_pending oracle k (initState rows) hne, initState_rounds,
    Nat.zero_add]

/-- C4: if a job is still pending after `k0` rounds and its poll in
round `k0 + 1` returns Task status COMPLETED with a non-null result,
then its attempts counter was `k0` (one increment per polled round,
starting from 0), the completed set of the full run contains exactly
one entry for the job — the snapshot with `attempts = k0 + 1`, i.e.
the number of the round in which it completed, paired with that
response — and in every state of the run each pending job's attempts
counter equals the number of rounds executed. -/
theorem claim_C4_completed_once (oracle : Nat → String → HttpOutcome)
    (rows : List (Option String)) (k0 : Nat) (j : Job)
    (hk : k0 < maxIteracoes)
    (hj : j ∈ (runLoop oracle k0 (initState rows)).pending)
    (hc : isCompletedTaskResp (buscar_dados (oracle (k0 + 1) j.id)) = true) :
    j.attempts = k0
    ∧ ({ j with attempts := k0 + 1, last_status := "COMPLETED" },
        buscar_dados (oracle (k0 + 1) j.id)) ∈ (processar oracle rows).resultados
    ∧ ((processar oracle rows).resultados.map (fun q => q.1.index)).count j.index = 1
    ∧ (∀ m, ∀ x ∈ (runLoop oracle m (initState rows)).pending,
        x.attempts = (runLoop oracle m (initState rows)).rounds) := by
  have hne : (runLoop oracle k0 (initState rows)).pending ≠ [] :=
    fun hcon => by rw [hcon] at hj; cases hj
  have hrounds := runLoop_rounds_init oracle k0 rows hne
  have hattinv : ∀ m, ∀ x ∈ (runLoop oracle m (initState rows)).pending,
      x.attempts = (runLoop oracle m (initState rows)).rounds := fun m =>
    runLoop_pending_attempts oracle m (initState rows)
      (fun x hx => mkJobs_attempts rows x hx)
  have hatt : j.attempts = k0 := by rw [hattinv k0 j hj, hrounds]
  have hpi := processItem_of_completedTask (buscar_dados (oracle (k0 + 1) j.id)) j hc
  have hmemstep : ({ j with attempts := j.attempts + 1, last_status := "COMPLETED" },
      buscar_dados (oracle (k0 + 1) j.id)) ∈
      (stepRound oracle (runLoop oracle k0 (initState rows))).completed := by
    rw [stepRound_completed, hrounds]
    exact List.mem_append_right _
      (runRound_mem_completed (oracle (k0 + 1)) _ j _ hj hpi)
  obtain ⟨d, hd⟩ : ∃ d, maxIteracoes = k0 + (d + 1) := ⟨maxIteracoes - k0 - 1, by omega⟩
  have hdec : runLoop oracle maxIteracoes (initState rows) =
      runLoop oracle d (stepRound oracle (runLoop oracle k0 (initState rows))) := by
    rw [hd]
    exact runLoop_peel oracle k0 d (initState rows) hne
  rw [hatt] at hmemstep
  have hmemfinal : ({ j with attempts := k0 + 1, last_status := "COMPLETED" },
      buscar_dados (oracle (k0 + 1) j.id)) ∈ (processar oracle rows).resultados := by
    rw [processar_resultados, hdec]
    exact runLoop_completed_mono oracle d _ _ hmemstep
  refine ⟨hatt, hmemfinal, ?_, hattinv⟩
  have hidx : j.index ∈
      ((runLoop oracle maxIteracoes (initState rows)).completed.map (fun q => q.1.index)) := by
    rw [processar_resultados] at hmemfinal
    have := List.mem_map_of_mem (fun q => q.1.index) hmemfinal
    simpa using this
  have hnodup := (stage_nodup_parts oracle maxIteracoes rows).1
  have hle := List.nodup_iff_count_le_one.mp hnodup j.index
  have hpos := List.count_pos_iff.mpr hidx
  rw [processar_resultados]
  omega

/-- C5: if a job is still pending after `k0` rounds and its poll in
round `k0 + 1` returns Task status ERROR, the job is moved to the error
set with `last_status = "ERROR"` and `attempts = k0 + 1`, it never
appears in the completed set of the full run, and its index is absent
from the pending list of every later state of the run, so it is never
polled again. -/
theorem claim_C5_error_terminal (oracle : Nat → String → HttpOutcome)
    (rows : List (Option String)) (k0 : Nat) (j : Job)
    (hk : k0 < maxIteracoes)
    (hj : j ∈ (runLoop oracle k0 (initState rows)).pending)
    (he : isErrorTaskResp (buscar_dados (oracle (k0 + 1) j.id)) = true) :
    ({ j with attempts := k0 + 1, last_status := "ERROR" }) ∈ (processar oracle rows).error_ids
    ∧ j.index ∉ ((processar oracle rows).resultados.map (fun q => q.1.index))
    ∧ (∀ m, k0 + 1 ≤ m → m ≤ maxIteracoes →
        j.index ∉ ((runLoop oracle m (initState rows)).pending.map Job.index)) := by
  have hne : (runLoop oracle k0 (initState rows)).pending ≠ [] :=
    fun hcon => by rw [hcon] at hj; cases hj
  have hrounds := runLoop_rounds_init oracle k0 rows hne
  have hatt : j.attempts = k0 := by
    rw [runLoop_pending_attempts oracle k0 (initState rows)
      (fun x hx => mkJobs_attempts rows x hx) j hj, hrounds]
  have hpi := processItem_of_errorTask (buscar_dados (oracle (k0 + 1) j.id)) j he
  have hmemstep : ({ j with attempts := j.attempts + 1, last_status := "ERROR" }) ∈
      (stepRound oracle (runLoop oracle k0 (initState rows))).errors := by
    rw [stepRound_errors, hrounds]
    exact List.mem_append_right _
      (runRound_mem_errors (oracle (k0 + 1)) _ j _ hj hpi)
  rw [hatt] at hmemstep
  have hstage1 : runLoop oracle (k0 + 1) (initState rows) =
      stepRound oracle (runLoop oracle k0 (initState rows)) := by
    have := runLoop_peel oracle k0 0 (initState rows) hne
    rw [runLoop_zero] at this
    exact this
  have hmemstage : ∀ m, k0 + 1 ≤ m →
      ({ j with attempts := k0 + 1, last_status := "ERROR" }) ∈
        (runLoop oracle m (initState rows)).errors := by
    intro m hm
    obtain ⟨e, hedef⟩ : ∃ e, m = (k0 + 1) + e := ⟨m - (k0 + 1), by omega⟩
    rw [hedef, runLoop_add, hstage1]
    exact runLoop_errors_mono oracle e _ _ hmemstep
  have hidxstage : ∀ m, k0 + 1 ≤ m →
      j.index ∈ ((runLoop oracle m (initState rows)).errors.map Job.index) := by
    intro m hm
    have := List.mem_map_of_mem Job.index (hmemstage m hm)
    simpa using this
  refine ⟨?_, ?_, ?_⟩
  · rw [processar_error_ids]
    exact List.mem_append_left _ (by
      have := hmemstage maxIteracoes (by omega)
      exact this)
  · intro hcmem
    rw [processar_resultados] at hcmem
    exact (stage_nodup_parts oracle maxIteracoes rows).2.2.2.1 hcmem
      (hidxstage maxIteracoes (by omega))
  · intro m hm hmle hpmem
    exact (stage_nodup_parts oracle m rows).2.2.2.2
      (List.mem_append_right _ (hidxstage m hm)) hpmem

/-- Environment for the C4 witness: PROCESSING in round 1, COMPLETED
with a payload from round 2 on. -/
def c4Oracle : Nat → String → HttpOutcome := fun k _ =>
  if k ≤ 1 then HttpOutcome.body ⟨some [⟨[⟨some "PROCESSING"⟩], none⟩]⟩
  else HttpOutcome.body ⟨some [⟨[⟨some "COMPLETED"⟩], some "ok"⟩]⟩

/-- Witness for C4: the single job completes in round 2 with
attempts 2, and appears in the completed set exactly once. -/
theorem claim_C4_completed_once_witness :
    (⟨0, "A", 1, "PROCESSING"⟩ : Job).attempts = 1
    ∧ ((⟨0, "A", 2, "COMPLETED"⟩ : Job), buscar_dados (c4Oracle 2 "A"))
        ∈ (processar c4Oracle [some "A"]).resultados
    ∧ ((processar c4Oracle [some "A"]).resultados.map (fun q => q.1.index)).count
        (⟨0, "A", 1, "PROCESSING"⟩ : Job).index = 1 :=
  ⟨(claim_C4_completed_once c4Oracle [some "A"] 1 ⟨0, "A", 1, "PROCESSING"⟩
      (by decide) (by decide) (by decide)).1,
    (claim_C4_completed_once c4Oracle [some "A"] 1 ⟨0, "A", 1, "PROCESSING"⟩
      (by decide) (by decide) (by decide)).2.1,
    (claim_C4_completed_once c4Oracle [some "A"] 1 ⟨0, "A", 1, "PROCESSING"⟩
      (by decide) (by decide) (by decide)).2.2.1⟩

/-- Environment for the C5 witness: PROCESSING in round 1, ERROR from
round 2 on. -/
def c5Oracle : Nat → String → HttpOutcome := fun k _ =>
  if k ≤ 1 then HttpOutcome.body ⟨some [⟨[⟨some "PROCESSING"⟩], none⟩]⟩
  else HttpOutcome.body ⟨some [⟨[⟨some "error"⟩], none⟩]⟩

/-- Witness for C5: the single job errors in round 2, lands in the
error set with last status ERROR, and never reaches the completed set. -/
theorem claim_C5_error_terminal_witness :
    ((⟨0, "A", 2, "ERROR"⟩ : Job)) ∈ (processar c5Oracle [some "A"]).error_ids
    ∧ (⟨0, "A", 1, "PROCESSING"⟩ : Job).index ∉
        ((processar c5Oracle [some "A"]).resultados.map (fun q => q.1.index)) :=
  ⟨(claim_C5_error_terminal c5Oracle [some "A"] 1 ⟨0, "A", 1, "PROCESSING"⟩
      (by decide) (by decide) (by decide)).1,
    (claim_C5_error_terminal c5Oracle [some "A"] 1 ⟨0, "A", 1, "PROCESSING"⟩
      (by decide) (by decide) (by decide)).2.1⟩
